import Mathlib

/-!
Verification development for market-news-radar's ingestion-and-scoring
pipeline (backend/scraper.py, backend/db.py, backend/app.py).

Conventions of the embedding:
* Python strings are Lean `String`s; character-level work happens on
  `String.data : List Char`.  `.lower()` / `.upper()` are `Char.toLower` /
  `Char.toUpper` mapped over the characters (identical to Python on the
  ASCII texts this pipeline is specified for).
* Python's substring test `needle in hay` is `containsSub`.
* Python's `str.count` (non-overlapping occurrence count, `len + 1` for
  the empty needle) is `pyCount`.
* The SQLite store behind `backend/db.py` is `Store`/`Conn`: one shared
  (singleton) connection holding committed tables plus the statements of the
  currently open transaction (`pending*`); a statement sees the committed
  rows and the pending rows of the same connection, constraint checks
  (`articles.url` UNIQUE, `article_tickers` composite PRIMARY KEY) happen at
  statement execution against that view, and `commit` makes the pending
  statements durable.  Foreign keys are not modelled: db.py never issues
  `PRAGMA foreign_keys=ON`, so SQLite does not enforce them.  Row ids come
  from a monotone `nextId` counter (AUTOINCREMENT never reuses ids).
* Third-party libraries that are not part of the repository are parameters:
  the VADER sentiment analyzer (`pol`), BeautifulSoup's HTML stripping
  (`ch`), and date parsing, which also reads the wall clock (`pd`).
-/

namespace MarketNewsRadar

/-- Python's substring containment `p in s` on character lists:
true iff `p` occurs contiguously in `s` (the empty list occurs everywhere). -/
def containsSub (p : List Char) : List Char → Bool
  | [] => p.isEmpty
  | c :: s => p.isPrefixOf (c :: s) || containsSub p s

/-- Python's `str.lower()` (ASCII). -/
def lowerL (l : List Char) : List Char := l.map Char.toLower

/-- Python's `str.upper()` (ASCII). -/
def upperL (l : List Char) : List Char := l.map Char.toUpper

/-- The static company-name → ticker-symbol table, scraper.py lines 27-116,
in source order (keys are lower-case in the source). -/
def COMPANY_TO_TICKER : List (String × String) :=
  [("apple", "AAPL"), ("microsoft", "MSFT"), ("alphabet", "GOOGL"),
   ("google", "GOOGL"), ("amazon", "AMZN"), ("meta", "META"),
   ("facebook", "META"), ("tesla", "TSLA"), ("nvidia", "NVDA"),
   ("netflix", "NFLX"), ("adobe", "ADBE"), ("salesforce", "CRM"),
   ("oracle", "ORCL"), ("intel", "INTC"), ("amd", "AMD"), ("ibm", "IBM"),
   ("cisco", "CSCO"), ("qualcomm", "QCOM"),
   ("jpmorgan", "JPM"), ("jp morgan", "JPM"), ("bank of america", "BAC"),
   ("wells fargo", "WFC"), ("goldman sachs", "GS"), ("morgan stanley", "MS"),
   ("citigroup", "C"), ("visa", "V"), ("mastercard", "MA"),
   ("paypal", "PYPL"), ("square", "SQ"), ("american express", "AXP"),
   ("walmart", "WMT"), ("target", "TGT"), ("costco", "COST"),
   ("home depot", "HD"), ("nike", "NKE"), ("starbucks", "SBUX"),
   ("mcdonalds", "MCD"), ("mcdonald\x27s", "MCD"), ("coca cola", "KO"),
   ("coca-cola", "KO"), ("pepsi", "PEP"), ("procter & gamble", "PG"),
   ("disney", "DIS"),
   ("general motors", "GM"), ("ford", "F"), ("gm", "GM"),
   ("pfizer", "PFE"), ("moderna", "MRNA"), ("johnson & johnson", "JNJ"),
   ("abbvie", "ABBV"), ("merck", "MRK"), ("eli lilly", "LLY"),
   ("bristol myers", "BMY"), ("unitedhealth", "UNH"),
   ("exxon", "XOM"), ("chevron", "CVX"), ("conocophillips", "COP"),
   ("schlumberger", "SLB"),
   ("bitcoin", "BTC"), ("ethereum", "ETH"), ("coinbase", "COIN"),
   ("microstrategy", "MSTR"),
   ("boeing", "BA"), ("lockheed martin", "LMT"), ("raytheon", "RTX"),
   ("berkshire hathaway", "BRK.B"), ("at&t", "T"), ("verizon", "VZ"),
   ("comcast", "CMCSA"), ("lowes", "LOW"), ("lowe\x27s", "LOW")]

/-- The delimiter patterns a ticker symbol is searched with,
scraper.py lines 190-196. -/
def ticker_patterns (t : String) : List (List Char) :=
  [' ' :: t.data ++ [' '],
   ' ' :: t.data ++ [','],
   ' ' :: t.data ++ ['.'],
   '(' :: t.data ++ [')'],
   '$' :: t.data]

/-- Method 1 of scraper.py `calculate_score` (lines 188-199): the symbol `t`
is matched when one of its upper-cased delimiter patterns occurs in the
upper-cased text or in the upper-cased text padded with one space on each
side (`f" {text_upper} "`). -/
def tickerSymbolMatched (text_upper : List Char) (t : String) : Bool :=
  (ticker_patterns t).any fun p =>
    containsSub (upperL p) text_upper ||
    containsSub (upperL p) (' ' :: text_upper ++ [' '])

/-- Adding an element to the accumulator unless present: the model of
`set.add` on Python's `matched_tickers` set (insertion order kept; the claims
only use membership and cardinality, which do not depend on the order). -/
def insertUniq (acc : List String) (x : String) : List String :=
  if x ∈ acc then acc else acc ++ [x]

/-- The `matched_tickers` set of scraper.py `calculate_score`
(lines 184-207): Method 1 filters the supplied ticker list by delimited
symbol occurrence; Method 2 walks the static `COMPANY_TO_TICKER` table and
adds the target symbol when it is in the supplied ticker list and the
company name occurs in the lower-cased text. -/
def matchedTickers (text_upper text_lower : List Char)
    (tickers : List String) : List String :=
  let m1 := tickers.foldl
    (fun acc t => if tickerSymbolMatched text_upper t then insertUniq acc t else acc) []
  COMPANY_TO_TICKER.foldl
    (fun acc ct =>
      if decide (ct.2 ∈ tickers) && containsSub ct.1.data text_lower then
        insertUniq acc ct.2
      else acc) m1

/-- Left-to-right non-overlapping occurrence scan for a non-empty needle
`p`.  The fuel argument is structural and only bounds the recursion; every
step consumes at least one character of `s`, so `s.length` fuel is always
enough (structural recursion keeps the function kernel-reducible). -/
def pyCountAux (p : List Char) : Nat → List Char → Nat
  | 0, _ => 0
  | fuel + 1, s =>
    match s with
    | [] => 0
    | c :: s2 =>
      if p.isPrefixOf (c :: s2) then 1 + pyCountAux p fuel ((c :: s2).drop p.length)
      else pyCountAux p fuel s2

/-- Python's `hay.count(needle)`: number of non-overlapping occurrences,
scanning left to right; the empty needle counts `len(hay) + 1` times. -/
def pyCount (s p : List Char) : Nat :=
  if p = [] then s.length + 1 else pyCountAux p s.length s

/-- Keyword hits of scraper.py `calculate_score` (lines 209-214): occurrences
of every keyword (lower-cased) in the lower-cased text, summed. -/
def keywordHits (text_lower : List Char) (keywords : List String) : Nat :=
  keywords.foldl (fun acc k => acc + pyCount text_lower (lowerL k.data)) 0

/-- Strong-word signal of scraper.py `calculate_score` (lines 216-220):
any configured strong word occurs (lower-cased) in the lower-cased text. -/
def strongWordPresent (text_lower : List Char) (strong_words : List String) : Bool :=
  strong_words.any fun w => containsSub (lowerL w.data) text_lower

/-- scraper.py `calculate_score` (lines 166-225): returns
`(2 * len(matched_tickers) + keyword_hits + (1 if strong_word_present else 0),
matched_tickers)`. -/
def calculate_score (text : String) (tickers keywords strong_words : List String) :
    Nat × List String :=
  let text_lower := lowerL text.data
  let text_upper := upperL text.data
  let matched := matchedTickers text_upper text_lower tickers
  let keyword_hits := keywordHits text_lower keywords
  let strong_word_present := strongWordPresent text_lower strong_words
  (2 * matched.length + keyword_hits + (if strong_word_present then 1 else 0),
   matched)

/-- scraper.py `calculate_sentiment` (lines 228-234): `0.0` for empty text,
otherwise the VADER compound score.  VADER's `SentimentIntensityAnalyzer` is
a third-party dependency, not code of this repository; it enters as the
parameter `pol`, which spec §4.3 contracts to a bounded compound value. -/
def calculate_sentiment (pol : String → ℚ) (text : String) : ℚ :=
  if text = "" then 0 else pol text

/-! ## The database layer (backend/db.py) -/

/-- One row of the `articles` table (db.py lines 89-103). -/
structure ArticleRow where
  id : Nat
  feed_id : Nat
  url : String
  title : String
  summary : String
  published_ts : Int
  published_str : String
  score : Nat
  sentiment : ℚ
deriving DecidableEq

/-- The committed state of the two tables the Deduplicator/Writer touches:
`articles` and the `article_tickers` junction table (rows are
`(article_id, ticker_id)`). -/
structure Store where
  articles : List ArticleRow
  article_tickers : List (Nat × Nat)
deriving DecidableEq

/-- The shared singleton connection (db.py lines 16, 24-40): the committed
store plus the rows written by statements of the currently open transaction
but not yet committed.  `nextId` is the next AUTOINCREMENT id. -/
structure Conn where
  committed : Store
  pendingArticles : List ArticleRow
  pendingAssocs : List (Nat × Nat)
  nextId : Nat
deriving DecidableEq

/-- The `articles` rows a statement on this connection sees: committed rows
plus the connection's own uncommitted rows. -/
def Conn.viewArticles (c : Conn) : List ArticleRow :=
  c.committed.articles ++ c.pendingArticles

/-- The `article_tickers` rows a statement on this connection sees. -/
def Conn.viewAssocs (c : Conn) : List (Nat × Nat) :=
  c.committed.article_tickers ++ c.pendingAssocs

/-- Whether some row in `rows` has url `u`. -/
def urlIn (rows : List ArticleRow) (u : String) : Bool :=
  rows.any fun r => r.url == u

/-- db.py `article_exists` (lines 378-386): `SELECT COUNT(*) FROM articles
WHERE url = ?` on the shared connection, which sees its own uncommitted rows. -/
def article_exists (c : Conn) (u : String) : Bool :=
  urlIn c.viewArticles u

/-- The argument bundle of db.py `insert_article` (lines 389-399). -/
structure ArticleData where
  feed_id : Nat
  url : String
  title : String
  summary : String
  published_ts : Int
  published_str : String
  score : Nat
  sentiment : ℚ
  ticker_ids : List Nat
deriving DecidableEq

/-- The `articles` row the INSERT of db.py lines 403-407 writes. -/
def mkArticleRow (id : Nat) (d : ArticleData) : ArticleRow :=
  { id := id, feed_id := d.feed_id, url := d.url, title := d.title,
    summary := d.summary, published_ts := d.published_ts,
    published_str := d.published_str, score := d.score,
    sentiment := d.sentiment }

/-- The connection after a successful article INSERT joined the open
transaction: the new row is pending and the AUTOINCREMENT counter advanced. -/
def afterArticleInsert (c : Conn) (d : ArticleData) : Conn :=
  { c with
      pendingArticles := c.pendingArticles ++ [mkArticleRow c.nextId d]
      nextId := c.nextId + 1 }

/-- Executing `INSERT INTO articles ...` (db.py lines 403-407): SQLite checks
the `url` UNIQUE constraint against the connection's current view; on
violation the statement raises (`none`) and writes nothing, otherwise the row
joins the open transaction and the cursor's `lastrowid` is returned. -/
def execInsertArticle (c : Conn) (d : ArticleData) : Option (Conn × Nat) :=
  if urlIn c.viewArticles d.url then none
  else some (afterArticleInsert c d, c.nextId)

/-- Executing `INSERT INTO article_tickers ...` (db.py lines 413-415):
the composite PRIMARY KEY `(article_id, ticker_id)` is checked against the
connection's current view; on violation the statement raises and writes
nothing. -/
def execInsertAssoc (c : Conn) (aid tid : Nat) : Option Conn :=
  if (aid, tid) ∈ c.viewAssocs then none
  else some { c with pendingAssocs := c.pendingAssocs ++ [(aid, tid)] }

/-- `await db.commit()`: the open transaction's rows become durable.
Note there is no rollback anywhere in db.py, so the pending rows of a failed
`insert_article` stay on the connection until some later commit. -/
def Conn.commit (c : Conn) : Conn :=
  { committed := { articles := c.committed.articles ++ c.pendingArticles,
                   article_tickers := c.committed.article_tickers ++ c.pendingAssocs },
    pendingArticles := [], pendingAssocs := [], nextId := c.nextId }

/-- The association-insert loop of db.py lines 412-415, raising
(`Except.error` with the connection as it stands, pending rows kept) when a
statement fails. -/
def insertAssocs (aid : Nat) : Conn → List Nat → Except Conn Conn
  | c, [] => .ok c
  | c, t :: ts =>
    match execInsertAssoc c aid t with
    | none => .error c
    | some c2 => insertAssocs aid c2 ts

/-- db.py `insert_article` (lines 389-419): INSERT the article row, INSERT
one association row per ticker id, then commit; on any statement failure the
exception propagates and — there being no rollback — everything already
executed stays pending on the shared connection. -/
def insert_article (c : Conn) (d : ArticleData) : Except Conn (Conn × Nat) :=
  match execInsertArticle c d with
  | none => .error c
  | some (c1, aid) =>
    match insertAssocs aid c1 d.ticker_ids with
    | .error c2 => .error c2
    | .ok c2 => .ok (c2.commit, aid)

/-- The connection after an `insert_article` call, whether it raised or not. -/
def connOf : Except Conn (Conn × Nat) → Conn
  | .error c => c
  | .ok p => p.1

/-- Whether an `insert_article` call raised. -/
def isErr : Except Conn (Conn × Nat) → Bool
  | .error _ => true
  | .ok _ => false

/-- The connection after the association-insert loop, raised or not. -/
def connOfA : Except Conn Conn → Conn
  | .error c => c
  | .ok c => c

/-- The insert loop of scraper.py `run_cycle` (lines 392-408): each article
is inserted through `insert_article`; an exception is caught, logged and the
loop continues; the number of successful inserts is returned. -/
def insertPhase : Conn → List ArticleData → Conn × Nat
  | c, [] => (c, 0)
  | c, d :: ds =>
    match insert_article c d with
    | .ok p => let r := insertPhase p.1 ds; (r.1, r.2 + 1)
    | .error c2 => insertPhase c2 ds

/-- One SQLite statement (or commit) on the shared connection, the
granularity at which concurrent coroutines interleave (every `await
db.execute`/`db.commit` is one such step). -/
inductive DbOp where
  | insArticle (d : ArticleData)
  | insAssoc (aid tid : Nat)
  | commit
deriving DecidableEq

/-- Executing one statement on the shared connection; a failing statement
(constraint violation) changes nothing. -/
def applyOp (c : Conn) : DbOp → Conn
  | .insArticle d =>
    match execInsertArticle c d with
    | none => c
    | some p => p.1
  | .insAssoc aid tid => (execInsertAssoc c aid tid).getD c
  | .commit => c.commit

/-- An arbitrary sequence of statements on the shared connection — in
particular, any interleaving of the statements issued by two concurrently
running `run_cycle` coroutines. -/
def applyOps (c : Conn) (ops : List DbOp) : Conn :=
  ops.foldl applyOp c

/-- At most one article per URL, in the view of the shared connection
(committed rows included). -/
def urlsUnique (c : Conn) : Prop :=
  (c.viewArticles.map ArticleRow.url).Nodup

/-! ## The per-entry pipeline (scraper.py `process_feed_entries`) -/

/-- A parsed feed entry as `process_feed_entries` reads it: every field is
optional (`entry.get(...)`).  `content_value` stands for
`entry.get('content', [{}])[0].get('value', '')`. -/
structure FeedEntry where
  link : Option String
  title : Option String
  summary : Option String
  description : Option String
  content_value : Option String
  published : Option String
  updated : Option String
deriving DecidableEq

/-- scraper.py line 255: `entry.get('link', '')`. -/
def entryUrl (e : FeedEntry) : String := e.link.getD ""

/-- scraper.py line 256: `entry.get('title', 'No title')`. -/
def entryTitle (e : FeedEntry) : String := e.title.getD "No title"

/-- scraper.py lines 259-263: Python's `or` chain picks the first non-empty
of summary, description, content value. -/
def entrySummary (e : FeedEntry) : String :=
  let s1 := e.summary.getD ""
  let s2 := e.description.getD ""
  let s3 := e.content_value.getD ""
  if s1 ≠ "" then s1 else if s2 ≠ "" then s2 else s3

/-- scraper.py line 278: `entry.get('published', entry.get('updated', ''))`. -/
def entryPublished (e : FeedEntry) : String :=
  e.published.getD (e.updated.getD "")

/-- First `n` characters, Python's `s[:n]`. -/
def strTake (s : String) (n : Nat) : String := ⟨s.data.take n⟩

/-- Processing of one entry, scraper.py lines 252-310.  `ch` is the
third-party BeautifulSoup-based `clean_html` (spec §4.1 contracts it to
markup stripping that never raises); `pd` is `parse_published_date`, which
reads the wall clock on parse failure; `pol` is the VADER analyzer.  The
entry is skipped (`none`) when its URL is empty, its cleaned title is empty,
or the URL is already in the store; otherwise the article data that
`run_cycle` will insert is produced. -/
def processEntry (ch : String → String) (pd : String → Int × String)
    (pol : String → ℚ) (c : Conn) (feed_id : Nat)
    (tickers keywords strong_words : List String)
    (ticker_map : List (String × Nat)) (e : FeedEntry) : Option ArticleData :=
  let url := entryUrl e
  let title_clean := ch (entryTitle e)
  let summary_clean := ch (entrySummary e)
  if url = "" ∨ title_clean = "" then none
  else if article_exists c url then none
  else
    let ps := pd (entryPublished e)
    let full_text := title_clean ++ " " ++ summary_clean
    let sr := calculate_score full_text tickers keywords strong_words
    let ticker_ids := sr.2.filterMap fun s => ticker_map.lookup s
    some { feed_id := feed_id, url := url, title := title_clean,
           summary := strTake summary_clean 500,
           published_ts := ps.1, published_str := ps.2,
           score := sr.1, sentiment := calculate_sentiment pol full_text,
           ticker_ids := ticker_ids }

/-- scraper.py `process_feed_entries` (lines 237-316) over one feed's
entries.  All `article_exists` checks of a cycle run against the store as it
stands before the cycle's insert loop starts (`run_cycle` gathers every
processing task before inserting anything). -/
def processFeedEntries (ch : String → String) (pd : String → Int × String)
    (pol : String → ℚ) (c : Conn) (feed_id : Nat) (entries : List FeedEntry)
    (tickers keywords strong_words : List String)
    (ticker_map : List (String × Nat)) : List ArticleData :=
  entries.filterMap
    (processEntry ch pd pol c feed_id tickers keywords strong_words ticker_map)

/-- One active feed as `run_cycle` sees it: its id and its parsed entries. -/
structure FeedInput where
  feed_id : Nat
  entries : List FeedEntry
deriving DecidableEq

/-- The `all_articles` list of scraper.py `run_cycle` (lines 354-389): the
concatenation of every feed's processed entries, all produced against the
pre-insert store. -/
def cycleCandidates (ch : String → String) (pd : String → Int × String)
    (pol : String → ℚ) (c : Conn) (feeds : List FeedInput)
    (tickers keywords strong_words : List String)
    (ticker_map : List (String × Nat)) : List ArticleData :=
  (feeds.map fun f =>
    processFeedEntries ch pd pol c f.feed_id f.entries tickers keywords
      strong_words ticker_map).flatten

/-- The fetch→process→insert core of scraper.py `run_cycle` (lines 319-411):
process all feeds' entries against the current store, then insert the
candidates sequentially; returns the updated connection and the number of
articles inserted. -/
def runCycleModel (ch : String → String) (pd : String → Int × String)
    (pol : String → ℚ) (c : Conn) (feeds : List FeedInput)
    (tickers keywords strong_words : List String)
    (ticker_map : List (String × Nat)) : Conn × Nat :=
  insertPhase c
    (cycleCandidates ch pd pol c feeds tickers keywords strong_words ticker_map)

/-! ## The scheduling loop (backend/app.py) -/

/-- Where a coroutine stands relative to `scraper.run_cycle`: not inside it,
or inside it (suspended at one of its `await` points — `run_cycle` awaits
database reads, feed fetches and inserts throughout, scraper.py lines
332-408, so a coroutine inside it always yields to the event loop). -/
inductive TaskPC where
  | outside
  | running
deriving DecidableEq

/-- The joint state of the background scheduling task
(`background_scraper_loop`, app.py lines 164-191) and the manual-refresh
handler (`manual_refresh`, app.py lines 375-395), both run by the same
asyncio event loop. -/
structure SchedState where
  bg : TaskPC
  man : TaskPC
deriving DecidableEq

/-- The event loop's steps.  Neither entry into `run_cycle` is guarded:
`background_scraper_loop` calls `await scraper.run_cycle()` unconditionally
(app.py line 176) and `manual_refresh` calls `await scraper.run_cycle()`
unconditionally (app.py line 380) — there is no lock, flag or queue, so each
may enter regardless of where the other task stands. -/
inductive SchedStep : SchedState → SchedState → Prop
  | bg_enter (m : TaskPC) : SchedStep ⟨.outside, m⟩ ⟨.running, m⟩
  | bg_exit (m : TaskPC) : SchedStep ⟨.running, m⟩ ⟨.outside, m⟩
  | man_enter (b : TaskPC) : SchedStep ⟨b, .outside⟩ ⟨b, .running⟩
  | man_exit (b : TaskPC) : SchedStep ⟨b, .running⟩ ⟨b, .outside⟩

/-- Reachability under the event loop's interleaving. -/
def SchedReachable : SchedState → SchedState → Prop :=
  Relation.ReflTransGen SchedStep

/-- What one iteration of `background_scraper_loop` (app.py lines 169-191)
observes: the `refresh_interval` that `get_settings` returns at the top of
the iteration (line 172), the value the settings table holds at the moment
`run_cycle` returns (which the code never reads), and whether an exception
escaped the body (line 189). -/
structure LoopIterObs where
  riAtIterStart : Nat
  riAtCycleEnd : Nat
  raised : Bool
deriving DecidableEq

/-- The sleep the iteration actually performs: `max(refresh_interval, 10)`
with the value read at the top of the iteration, before `run_cycle`
(app.py lines 173, 187), or the fixed 60-second backoff on error (line 191). -/
def backgroundIterSleep (ob : LoopIterObs) : Nat :=
  if ob.raised then 60 else max ob.riAtIterStart 10

/-- The sleep the claim describes: the interval re-read from Settings upon
the cycle's completion, floor-clamped to 10 (follows the spec's words). -/
def claimedIterSleep (ob : LoopIterObs) : Nat :=
  if ob.raised then 60 else max ob.riAtCycleEnd 10

/-! ## Spec-side definitions (for comparison with the embedded code) -/

/-- The matched-ticker set as the spec states it (§4.2): the tickers of the
supplied list whose symbol occurs delimited, together with the targets of the
static-table aliases whose target is in the supplied list and whose name
occurs in the lower-cased text. -/
def specMatchedTickerSet (text_upper text_lower : List Char)
    (tickers : List String) : Finset String :=
  (tickers.filter fun t => tickerSymbolMatched text_upper t).toFinset ∪
  ((COMPANY_TO_TICKER.filter fun ct =>
      decide (ct.2 ∈ tickers) && containsSub ct.1.data text_lower).map
    Prod.snd).toFinset

/-- A delimited occurrence of ticker symbol `t` in `text`, following the
spec's words: in the space-padded upper-cased text, the symbol appears with
a leading `'$'`, or with a leading delimiter (space or opening parenthesis)
and a trailing delimiter (space, comma, period or closing parenthesis). -/
def DelimOccurrence (text t : String) : Prop :=
  ∃ pre post lead,
    ' ' :: upperL text.data ++ [' '] = pre ++ lead :: (upperL t.data ++ post) ∧
    (lead = '$' ∨
      (lead ∈ [' ', '('] ∧
        ∃ trail rest, post = trail :: rest ∧ trail ∈ [' ', ',', '.', ')']))

/-! ## Concrete inputs used by witnesses and counterexamples -/

/-- A fresh connection over an empty store. -/
def emptyConn : Conn :=
  { committed := { articles := [], article_tickers := [] },
    pendingArticles := [], pendingAssocs := [], nextId := 1 }

/-- An `insert_article` argument whose ticker-id list repeats an id, so the
second association INSERT violates the junction table's composite primary
key after the article row and the first association were already executed. -/
def cexArticleData : ArticleData :=
  { feed_id := 1, url := "http://example.com/a", title := "t", summary := "",
    published_ts := 0, published_str := "", score := 0, sentiment := 0,
    ticker_ids := [7, 7] }

/-- A well-formed `insert_article` argument (distinct ticker ids). -/
def goodData : ArticleData :=
  { feed_id := 1, url := "http://example.com/b", title := "t", summary := "",
    published_ts := 0, published_str := "", score := 3, sentiment := 0,
    ticker_ids := [5] }

/-- The connection a successful `insert_article emptyConn goodData` leaves:
article row and its association committed together, nothing pending. -/
def goodConnAfter : Conn :=
  { committed := { articles := [mkArticleRow 1 goodData],
                   article_tickers := [(1, 5)] },
    pendingArticles := [], pendingAssocs := [], nextId := 2 }

/-- A feed entry with no title field at all. -/
def entryNoTitle : FeedEntry :=
  { link := some "http://example.com/n", title := none, summary := some "s",
    description := none, content_value := none, published := none,
    updated := none }

/-- A well-formed feed entry. -/
def entryGood : FeedEntry :=
  { link := some "http://example.com/g", title := some "Apple earnings",
    summary := some "s", description := none, content_value := none,
    published := none, updated := none }

/-- A connection whose store already holds the URL of `entryGood`. -/
def connWithG : Conn :=
  { committed :=
      { articles := [{ id := 1, feed_id := 1, url := "http://example.com/g",
                       title := "old", summary := "", published_ts := 0,
                       published_str := "", score := 0, sentiment := 0 }],
        article_tickers := [] },
    pendingArticles := [], pendingAssocs := [], nextId := 2 }

/-- The identity used to instantiate the abstract `clean_html` parameter in
witnesses (markup-free text is left unchanged). -/
def chId : String → String := fun s => s

/-- A fixed date parse used to instantiate the abstract
`parse_published_date` parameter in witnesses. -/
def pdZero : String → Int × String := fun _ => (0, "1970-01-01 00:00:00")

/-- The constant-zero analyzer: a valid instance of the sentiment contract. -/
def polZero : String → ℚ := fun _ => 0

/-- One feed carrying the same entry twice (two entries resolving to the
same URL within one cycle). -/
def wFeeds : List FeedInput := [{ feed_id := 1, entries := [entryGood, entryGood] }]

/-! ## Lemmas about the scorer -/

theorem containsSub_iff {p s : List Char} : containsSub p s = true ↔ p <:+: s := by
  induction s with
  | nil => simp [containsSub, List.isEmpty_iff]
  | cons c s ih => simp [containsSub, ih, List.infix_cons_iff]

theorem mem_insertUniq {acc : List String} {x y : String} :
    y ∈ insertUniq acc x ↔ y ∈ acc ∨ y = x := by
  by_cases h : x ∈ acc <;> simp [insertUniq, h]
  exact fun h2 => h2 ▸ h

theorem nodup_insertUniq {acc : List String} {x : String} (h : acc.Nodup) :
    (insertUniq acc x).Nodup := by
  by_cases hx : x ∈ acc <;> simp [insertUniq, hx, List.nodup_append, h]

theorem mem_foldTickers {tu : List Char} {tickers : List String}
    (init : List String) (y : String) :
    (y ∈ tickers.foldl
        (fun acc t => if tickerSymbolMatched tu t then insertUniq acc t else acc) init)
      ↔ y ∈ init ∨ (y ∈ tickers ∧ tickerSymbolMatched tu y = true) := by
  induction tickers generalizing init with
  | nil => simp
  | cons a l ih =>
    rw [List.foldl_cons, ih]
    by_cases h : tickerSymbolMatched tu a = true
    · rw [if_pos h]
      simp only [mem_insertUniq, List.mem_cons]
      constructor
      · rintro ((hy | rfl) | ⟨hy, hg⟩)
        · exact Or.inl hy
        · exact Or.inr ⟨Or.inl rfl, h⟩
        · exact Or.inr ⟨Or.inr hy, hg⟩
      · rintro (hy | ⟨(rfl | hy), hg⟩)
        · exact Or.inl (Or.inl hy)
        · exact Or.inl (Or.inr rfl)
        · exact Or.inr ⟨hy, hg⟩
    · rw [if_neg h]
      simp only [List.mem_cons]
      constructor
      · rintro (hy | ⟨hy, hg⟩)
        · exact Or.inl hy
        · exact Or.inr ⟨Or.inr hy, hg⟩
      · rintro (hy | ⟨(rfl | hy), hg⟩)
        · exact Or.inl hy
        · exact absurd hg h
        · exact Or.inr ⟨hy, hg⟩

theorem mem_foldTable {tl : List Char} {tickers : List String}
    (table : List (String × String)) (init : List String) (y : String) :
    (y ∈ table.foldl
        (fun acc ct =>
          if decide (ct.2 ∈ tickers) && containsSub ct.1.data tl then
            insertUniq acc ct.2
          else acc) init)
      ↔ y ∈ init ∨ ∃ ct ∈ table,
          (ct.2 ∈ tickers ∧ containsSub ct.1.data tl = true) ∧ ct.2 = y := by
  induction table generalizing init with
  | nil => simp
  | cons a l ih =>
    rw [List.foldl_cons, ih]
    by_cases h : (decide (a.2 ∈ tickers) && containsSub a.1.data tl) = true
    · rw [if_pos h]
      rw [Bool.and_eq_true, decide_eq_true_iff] at h
      simp only [mem_insertUniq, List.mem_cons]
      constructor
      · rintro ((hy | rfl) | ⟨ct, hct, hc, rfl⟩)
        · exact Or.inl hy
        · exact Or.inr ⟨a, Or.inl rfl, h, rfl⟩
        · exact Or.inr ⟨ct, Or.inr hct, hc, rfl⟩
      · rintro (hy | ⟨ct, (rfl | hct), hc, rfl⟩)
        · exact Or.inl (Or.inl hy)
        · exact Or.inl (Or.inr rfl)
        · exact Or.inr ⟨ct, hct, hc, rfl⟩
    · rw [if_neg h]
      simp only [List.mem_cons]
      constructor
      · rintro (hy | ⟨ct, hct, hc, rfl⟩)
        · exact Or.inl hy
        · exact Or.inr ⟨ct, Or.inr hct, hc, rfl⟩
      · rintro (hy | ⟨ct, (rfl | hct), hc, rfl⟩)
        · exact Or.inl hy
        · exact absurd (by simp [hc.1, hc.2]) h
        · exact Or.inr ⟨ct, hct, hc, rfl⟩

theorem nodup_foldTickers {tu : List Char} {tickers : List String}
    (init : List String) (h : init.Nodup) :
    (tickers.foldl
      (fun acc t => if tickerSymbolMatched tu t then insertUniq acc t else acc)
      init).Nodup := by
  induction tickers generalizing init with
  | nil => exact h
  | cons a l ih =>
    rw [List.foldl_cons]
    by_cases hg : tickerSymbolMatched tu a = true
    · rw [if_pos hg]; exact ih _ (nodup_insertUniq h)
    · rw [if_neg hg]; exact ih _ h

theorem nodup_foldTable {tl : List Char} {tickers : List String}
    (table : List (String × String)) (init : List String) (h : init.Nodup) :
    (table.foldl
      (fun acc ct =>
        if decide (ct.2 ∈ tickers) && containsSub ct.1.data tl then
          insertUniq acc ct.2
        else acc) init).Nodup := by
  induction table generalizing init with
  | nil => exact h
  | cons a l ih =>
    rw [List.foldl_cons]
    by_cases hg : (decide (a.2 ∈ tickers) && containsSub a.1.data tl) = true
    · rw [if_pos hg]; exact ih _ (nodup_insertUniq h)
    · rw [if_neg hg]; exact ih _ h

theorem mem_matchedTickers {tu tl : List Char} {tickers : List String}
    {y : String} :
    y ∈ matchedTickers tu tl tickers ↔
      (y ∈ tickers ∧ tickerSymbolMatched tu y = true) ∨
      ∃ ct ∈ COMPANY_TO_TICKER,
        (ct.2 ∈ tickers ∧ containsSub ct.1.data tl = true) ∧ ct.2 = y := by
  unfold matchedTickers
  rw [mem_foldTable, mem_foldTickers]
  simp

theorem matchedTickers_nodup {tu tl : List Char} {tickers : List String} :
    (matchedTickers tu tl tickers).Nodup := by
  unfold matchedTickers
  exact nodup_foldTable _ _ (nodup_foldTickers _ List.nodup_nil)

theorem matchedTickers_toFinset {tu tl : List Char} {tickers : List String} :
    (matchedTickers tu tl tickers).toFinset = specMatchedTickerSet tu tl tickers := by
  ext y
  rw [List.mem_toFinset, mem_matchedTickers]
  simp only [specMatchedTickerSet, Finset.mem_union, List.mem_toFinset,
    List.mem_filter, List.mem_map, Bool.and_eq_true, decide_eq_true_iff]
  constructor
  · rintro (⟨hy, hg⟩ | ⟨ct, hct, ⟨hc1, hc2⟩, rfl⟩)
    · exact Or.inl ⟨hy, hg⟩
    · exact Or.inr ⟨ct, ⟨hct, hc1, hc2⟩, rfl⟩
  · rintro (⟨hy, hg⟩ | ⟨ct, ⟨hct, hc1, hc2⟩, rfl⟩)
    · exact Or.inl ⟨hy, hg⟩
    · exact Or.inr ⟨ct, hct, ⟨hc1, hc2⟩, rfl⟩

theorem matchedTickers_length {tu tl : List Char} {tickers : List String} :
    (matchedTickers tu tl tickers).length =
      (specMatchedTickerSet tu tl tickers).card := by
  rw [← matchedTickers_toFinset, List.toFinset_card_of_nodup matchedTickers_nodup]

theorem delimOcc_of_pair {text t : String} (s u : List Char) (lead trail : Char)
    (hlead : lead ∈ [' ', '(']) (htrail : trail ∈ [' ', ',', '.', ')'])
    (heq : s ++ ((lead :: (upperL t.data ++ [trail])) ++ u) =
      ' ' :: upperL text.data ++ [' ']) :
    DelimOccurrence text t := by
  refine ⟨s, trail :: u, lead, ?_, Or.inr ⟨hlead, trail, u, rfl, htrail⟩⟩
  rw [← heq]
  simp [List.append_assoc]

theorem delimOcc_of_dollar {text t : String} (s u : List Char)
    (heq : s ++ (('$' :: upperL t.data) ++ u) = ' ' :: upperL text.data ++ [' ']) :
    DelimOccurrence text t := by
  refine ⟨s, u, '$', ?_, Or.inl rfl⟩
  rw [← heq]
  simp [List.append_assoc]

theorem tickerSymbolMatched_delim {text t : String}
    (h : tickerSymbolMatched (upperL text.data) t = true) :
    DelimOccurrence text t := by
  unfold tickerSymbolMatched at h
  rw [List.any_eq_true] at h
  obtain ⟨p, hp, hor⟩ := h
  have hpad : upperL p <:+: ' ' :: upperL text.data ++ [' '] := by
    rw [Bool.or_eq_true, containsSub_iff, containsSub_iff] at hor
    rcases hor with h1 | h2
    · exact h1.trans ⟨[' '], [' '], rfl⟩
    · exact h2
  obtain ⟨s, u, hsu⟩ := hpad
  have hsp : Char.toUpper ' ' = ' ' := by decide
  have hcm : Char.toUpper ',' = ',' := by decide
  have hdt : Char.toUpper '.' = '.' := by decide
  have hop : Char.toUpper '(' = '(' := by decide
  have hcp : Char.toUpper ')' = ')' := by decide
  have hdl : Char.toUpper '$' = '$' := by decide
  simp only [ticker_patterns, List.mem_cons, List.mem_singleton,
    List.not_mem_nil, or_false] at hp
  rcases hp with rfl | rfl | rfl | rfl | rfl
  · simp only [upperL, List.map_cons, List.map_append, List.map_nil, hsp] at hsu
    exact delimOcc_of_pair s u ' ' ' ' (by simp) (by simp) (by simpa [upperL] using hsu)
  · simp only [upperL, List.map_cons, List.map_append, List.map_nil, hsp, hcm] at hsu
    exact delimOcc_of_pair s u ' ' ',' (by simp) (by simp) (by simpa [upperL] using hsu)
  · simp only [upperL, List.map_cons, List.map_append, List.map_nil, hsp, hdt] at hsu
    exact delimOcc_of_pair s u ' ' '.' (by simp) (by simp) (by simpa [upperL] using hsu)
  · simp only [upperL, List.map_cons, List.map_append, List.map_nil, hop, hcp] at hsu
    exact delimOcc_of_pair s u '(' ')' (by simp) (by simp) (by simpa [upperL] using hsu)
  · simp only [upperL, List.map_cons, List.map_append, List.map_nil, hdl] at hsu
    exact delimOcc_of_dollar s u (by simpa [upperL] using hsu)

/-! ## Claim theorems about the scorer -/

/-- C5: in `calculate_score`, a ticker symbol is matched only at an
occurrence surrounded by the delimiters the spec lists (space, comma,
period, parentheses, or a leading `$`) — never by plain substring
containment inside a longer word; in particular "BANANA" with ticker "AN"
does not match while "AAPL jumped" with ticker "AAPL" does. -/
theorem symbol_matching_delimited :
    (∀ text t : String,
        tickerSymbolMatched (upperL text.data) t = true → DelimOccurrence text t)
    ∧ tickerSymbolMatched (upperL "AAPL jumped".data) "AAPL" = true
    ∧ tickerSymbolMatched (upperL "BANANA".data) "AN" = false
    ∧ "AAPL" ∈ (calculate_score "AAPL jumped" ["AAPL"] [] []).2
    ∧ (calculate_score "BANANA" ["AN"] [] []).2 = [] :=
  ⟨fun _ _ h => tickerSymbolMatched_delim h, by decide, by decide, by decide,
   by decide⟩

/-- C5 witness: the soundness direction applied at the concrete match of
"AAPL" in "AAPL jumped". -/
theorem symbol_matching_delimited_witness : DelimOccurrence "AAPL jumped" "AAPL" :=
  symbol_matching_delimited.1 "AAPL jumped" "AAPL" (by decide)

/-- C6: `calculate_score` returns exactly
`2 × |matched_ticker_set| + total_keyword_hits + strong_word_signal`, the
strong-word signal capped at 1; on the spec's end-to-end scenario the
matched tickers are exactly AAPL and TSLA and the score is 6. -/
theorem score_formula :
    (∀ text : String, ∀ tickers keywords strong_words : List String,
      (calculate_score text tickers keywords strong_words).1 =
        2 * (specMatchedTickerSet (upperL text.data) (lowerL text.data) tickers).card
          + keywordHits (lowerL text.data) keywords
          + (if strongWordPresent (lowerL text.data) strong_words then 1 else 0)
      ∧ (if strongWordPresent (lowerL text.data) strong_words then 1 else 0) ≤ 1)
    ∧ ("AAPL" ∈ (calculate_score
          "Apple announced record quarterly earnings today, Tesla too."
          ["AAPL", "TSLA"] ["earnings"] ["record"]).2
       ∧ "TSLA" ∈ (calculate_score
          "Apple announced record quarterly earnings today, Tesla too."
          ["AAPL", "TSLA"] ["earnings"] ["record"]).2
       ∧ (calculate_score
          "Apple announced record quarterly earnings today, Tesla too."
          ["AAPL", "TSLA"] ["earnings"] ["record"]).2.length = 2
       ∧ (calculate_score
          "Apple announced record quarterly earnings today, Tesla too."
          ["AAPL", "TSLA"] ["earnings"] ["record"]).1 = 6
       ∧ keywordHits (lowerL
          "Apple announced record quarterly earnings today, Tesla too.".data)
          ["earnings"] = 1
       ∧ strongWordPresent (lowerL
          "Apple announced record quarterly earnings today, Tesla too.".data)
          ["record"] = true) := by
  constructor
  · intro text tickers keywords strong_words
    constructor
    · show 2 * (matchedTickers (upperL text.data) (lowerL text.data) tickers).length
          + keywordHits (lowerL text.data) keywords
          + (if strongWordPresent (lowerL text.data) strong_words then 1 else 0) = _
      rw [matchedTickers_length]
    · split <;> omega
  · exact ⟨by decide, by decide, by decide, by decide, by decide, by decide⟩

/-- C8: the matched-ticker set returned by `calculate_score` is always a
subset of the supplied ticker list. -/
theorem matched_subset (text : String) (tickers keywords strong_words : List String)
    (t : String) (ht : t ∈ (calculate_score text tickers keywords strong_words).2) :
    t ∈ tickers := by
  replace ht : t ∈ matchedTickers (upperL text.data) (lowerL text.data) tickers := ht
  rcases mem_matchedTickers.mp ht with ⟨h1, _⟩ | ⟨ct, _, ⟨h1, _⟩, rfl⟩
  · exact h1
  · exact h1

/-- C8 witness: applied at the end-to-end scenario. -/
theorem matched_subset_witness : "AAPL" ∈ ["AAPL", "TSLA"] :=
  matched_subset "Apple announced record quarterly earnings today, Tesla too."
    ["AAPL", "TSLA"] ["earnings"] ["record"] "AAPL" (by decide)

/-- C9: `calculate_sentiment` stays within `[-1, 1]` for every text whenever
the analyzer's compound value does (the contract spec §4.3 states for the
third-party VADER analyzer), and returns exactly 0 on empty text. -/
theorem sentiment_bounded (pol : String → ℚ)
    (hpol : ∀ s, -1 ≤ pol s ∧ pol s ≤ 1) (text : String) :
    (-1 ≤ calculate_sentiment pol text ∧ calculate_sentiment pol text ≤ 1) ∧
    (text = "" → calculate_sentiment pol text = 0) := by
  unfold calculate_sentiment
  by_cases h : text = "" <;> simp [h]
  exact hpol text

/-- C9 witness: the constant-zero analyzer on the empty text. -/
theorem sentiment_bounded_witness :
    ((-1 ≤ calculate_sentiment polZero "" ∧ calculate_sentiment polZero "" ≤ 1) ∧
     ("" = "" → calculate_sentiment polZero "" = 0)) :=
  sentiment_bounded polZero (fun _ => by norm_num [polZero]) ""

/-- C4 (code bug record): the repository's seed data configures ticker SPY
with company aliases "s&p 500,s&p,spy", and its own test suite
(test_company_matching.py, case 6) expects SPY matched on this text; the
alias does occur in the lower-cased text, yet `calculate_score` — which
consults only the static `COMPANY_TO_TICKER` table and has no
company-mapping parameter — matches nothing. -/
theorem company_aliases_ignored :
    containsSub "s&p 500".data
      (lowerL "The S&P 500 index reached record levels.".data) = true
    ∧ (calculate_score "The S&P 500 index reached record levels."
        ["SPY"] [] []).2 = [] :=
  ⟨by decide, by decide⟩

/-! ## Lemmas about the database layer -/

theorem urlIn_iff {rows : List ArticleRow} {u : String} :
    urlIn rows u = true ↔ u ∈ rows.map ArticleRow.url := by
  simp only [urlIn, List.any_eq_true, beq_iff_eq, List.mem_map]

theorem viewArticles_commit (c : Conn) : c.commit.viewArticles = c.viewArticles := by
  simp [Conn.commit, Conn.viewArticles]

theorem afterArticleInsert_view (c : Conn) (d : ArticleData) :
    (afterArticleInsert c d).viewArticles =
      c.viewArticles ++ [mkArticleRow c.nextId d] := by
  simp [afterArticleInsert, Conn.viewArticles, List.append_assoc]

theorem execInsertArticle_some_eq {c : Conn} {d : ArticleData} {p : Conn × Nat}
    (heq : execInsertArticle c d = some p) :
    urlIn c.viewArticles d.url = false ∧ p = (afterArticleInsert c d, c.nextId) := by
  unfold execInsertArticle at heq
  split at heq
  · cases heq
  · rename_i h
    rw [Option.some.injEq] at heq
    exact ⟨by simpa using h, heq.symm⟩

theorem execInsertAssoc_some_eq {c c2 : Conn} {aid tid : Nat}
    (heq : execInsertAssoc c aid tid = some c2) :
    c2 = { c with pendingAssocs := c.pendingAssocs ++ [(aid, tid)] } := by
  unfold execInsertAssoc at heq
  split at heq
  · cases heq
  · cases heq; rfl

theorem insertAssocs_viewArticles (aid : Nat) (ts : List Nat) (c : Conn) :
    (connOfA (insertAssocs aid c ts)).viewArticles = c.viewArticles := by
  induction ts generalizing c with
  | nil => rfl
  | cons t ts ih =>
    show (connOfA (match execInsertAssoc c aid t with
      | none => .error c
      | some c2 => insertAssocs aid c2 ts)).viewArticles = _
    cases heq : execInsertAssoc c aid t with
    | none => rfl
    | some c2 =>
      rw [ih c2, execInsertAssoc_some_eq heq]
      rfl

theorem insertAssocs_ok_fields {aid : Nat} {ts : List Nat} {c c2 : Conn}
    (h : insertAssocs aid c ts = .ok c2) :
    c2.committed = c.committed ∧ c2.pendingArticles = c.pendingArticles ∧
    c2.nextId = c.nextId ∧
    c2.pendingAssocs = c.pendingAssocs ++ ts.map (fun t => (aid, t)) := by
  induction ts generalizing c with
  | nil =>
    simp only [insertAssocs, Except.ok.injEq] at h
    subst h
    exact ⟨rfl, rfl, rfl, by simp⟩
  | cons t ts ih =>
    simp only [insertAssocs] at h
    cases heq : execInsertAssoc c aid t with
    | none => rw [heq] at h; cases h
    | some c3 =>
      rw [heq] at h
      obtain ⟨h1, h2, h3, h4⟩ := ih h
      rw [execInsertAssoc_some_eq heq] at h1 h2 h3 h4
      refine ⟨h1, h2, h3, ?_⟩
      rw [h4]
      simp only []
      rw [List.append_assoc]
      rfl

theorem insert_article_eq (c : Conn) (d : ArticleData) :
    insert_article c d =
      if urlIn c.viewArticles d.url then .error c
      else
        match insertAssocs c.nextId (afterArticleInsert c d) d.ticker_ids with
        | .error c2 => .error c2
        | .ok c2 => .ok (c2.commit, c.nextId) := by
  unfold insert_article execInsertArticle
  by_cases h : urlIn c.viewArticles d.url = true
  · rw [if_pos h, if_pos h]
  · rw [if_neg h, if_neg h]

theorem insert_article_view (c : Conn) (d : ArticleData) :
    (urlIn c.viewArticles d.url = true ∧
      (connOf (insert_article c d)).viewArticles = c.viewArticles)
    ∨ (urlIn c.viewArticles d.url = false ∧
        (connOf (insert_article c d)).viewArticles =
          c.viewArticles ++ [mkArticleRow c.nextId d]) := by
  by_cases h : urlIn c.viewArticles d.url
  · left
    refine ⟨h, ?_⟩
    rw [insert_article_eq, if_pos h]
    rfl
  · right
    refine ⟨by simpa using h, ?_⟩
    rw [insert_article_eq, if_neg h]
    have hv := insertAssocs_viewArticles c.nextId d.ticker_ids (afterArticleInsert c d)
    cases haq : insertAssocs c.nextId (afterArticleInsert c d) d.ticker_ids with
    | error c3 =>
      rw [haq] at hv
      exact hv.trans (afterArticleInsert_view c d)
    | ok c3 =>
      rw [haq] at hv
      exact (viewArticles_commit c3).trans (hv.trans (afterArticleInsert_view c d))

theorem nodup_map_append_fresh {rows : List ArticleRow} {r : ArticleRow}
    (hn : (rows.map ArticleRow.url).Nodup) (hf : urlIn rows r.url = false) :
    ((rows ++ [r]).map ArticleRow.url).Nodup := by
  rw [List.map_append]
  have hnm : r.url ∉ rows.map ArticleRow.url := fun hm => by
    rw [urlIn_iff.mpr hm] at hf
    cases hf
  simp [List.nodup_append, hn, hnm]

theorem insert_article_unique {c : Conn} {d : ArticleData} (hu : urlsUnique c) :
    urlsUnique (connOf (insert_article c d)) := by
  rcases insert_article_view c d with ⟨_, h2⟩ | ⟨h1, h2⟩
  · unfold urlsUnique
    rw [h2]
    exact hu
  · unfold urlsUnique
    rw [h2]
    exact nodup_map_append_fresh hu (by simpa [mkArticleRow] using h1)

theorem insert_article_mono {c : Conn} {d : ArticleData} {u : String}
    (h : urlIn c.viewArticles u = true) :
    urlIn (connOf (insert_article c d)).viewArticles u = true := by
  rcases insert_article_view c d with ⟨_, h2⟩ | ⟨_, h2⟩ <;> rw [h2]
  · exact h
  · rw [urlIn_iff, List.map_append]
    exact List.mem_append_left _ (urlIn_iff.mp h)

theorem insert_article_url_present (c : Conn) (d : ArticleData) :
    urlIn (connOf (insert_article c d)).viewArticles d.url = true := by
  rcases insert_article_view c d with ⟨h1, h2⟩ | ⟨_, h2⟩ <;> rw [h2]
  · exact h1
  · rw [urlIn_iff, List.map_append]
    exact List.mem_append_right _ (by simp [mkArticleRow])

theorem insertPhase_fst_cons (c : Conn) (d : ArticleData) (ds : List ArticleData) :
    (insertPhase c (d :: ds)).1 = (insertPhase (connOf (insert_article c d)) ds).1 := by
  show (match insert_article c d with
    | .ok p => ((insertPhase p.1 ds).1, (insertPhase p.1 ds).2 + 1)
    | .error c2 => insertPhase c2 ds).1 = _
  cases heq : insert_article c d with
  | ok p => rfl
  | error c2 => rfl

theorem insertPhase_unique {ds : List ArticleData} {c : Conn} (hu : urlsUnique c) :
    urlsUnique (insertPhase c ds).1 := by
  induction ds generalizing c with
  | nil => exact hu
  | cons d ds ih =>
    rw [insertPhase_fst_cons]
    exact ih (insert_article_unique hu)

theorem insertPhase_mono {ds : List ArticleData} {c : Conn} {u : String}
    (h : urlIn c.viewArticles u = true) :
    urlIn (insertPhase c ds).1.viewArticles u = true := by
  induction ds generalizing c with
  | nil => exact h
  | cons d ds ih =>
    rw [insertPhase_fst_cons]
    exact ih (insert_article_mono h)

theorem insertPhase_url_present {ds : List ArticleData} {c : Conn} {d : ArticleData}
    (hd : d ∈ ds) :
    urlIn (insertPhase c ds).1.viewArticles d.url = true := by
  induction ds generalizing c with
  | nil => cases hd
  | cons e ds ih =>
    rw [insertPhase_fst_cons]
    rcases List.mem_cons.mp hd with rfl | hd2
    · exact insertPhase_mono (insert_article_url_present c d)
    · exact ih hd2

theorem countP_url_eq_one {rows : List ArticleRow} {u : String}
    (hn : (rows.map ArticleRow.url).Nodup) (hm : u ∈ rows.map ArticleRow.url) :
    rows.countP (fun r => r.url == u) = 1 := by
  induction rows with
  | nil => simp at hm
  | cons r rows ih =>
    rw [List.map_cons] at hn hm
    rw [List.countP_cons]
    rcases List.mem_cons.mp hm with heq | hmem
    · have h0 : rows.countP (fun r2 => r2.url == u) = 0 := by
        rw [List.countP_eq_zero]
        intro a ha
        simp only [beq_iff_eq]
        intro hau
        exact (List.nodup_cons.mp hn).1
          (heq ▸ hau ▸ List.mem_map_of_mem ArticleRow.url ha)
      rw [h0]
      simp [heq]
    · have hne : ¬((r.url == u) = true) := by
        simp only [beq_iff_eq]
        intro hru
        exact (List.nodup_cons.mp hn).1 (hru ▸ hmem)
      rw [ih (List.nodup_cons.mp hn).2 hmem]
      simp [hne]

theorem emptyConn_unique : urlsUnique emptyConn := by
  unfold urlsUnique
  decide

/-! ## Claim theorems about the database layer and the scheduler -/

/-- C1 counterexample: from both tasks idle, the event loop reaches a state
in which the background scheduling task and the manual-refresh handler are
both inside `run_cycle` — nothing rejects, queues or serializes the manual
trigger. -/
theorem concurrent_cycles_reachable :
    SchedReachable ⟨.outside, .outside⟩ ⟨.running, .running⟩ :=
  Relation.ReflTransGen.tail
    (Relation.ReflTransGen.single (SchedStep.bg_enter _))
    (SchedStep.man_enter _)

/-- C1 amended theorem: although two `run_cycle` executions can interleave,
any sequence of article/association INSERT statements and commits on the
shared connection preserves "at most one article per URL": the `articles.url`
UNIQUE constraint rejects the second insert of a URL, so no duplicate-URL
double-insert is observable even under the race. -/
theorem url_unique_under_interleaving (c : Conn) (ops : List DbOp)
    (hu : urlsUnique c) : urlsUnique (applyOps c ops) := by
  induction ops generalizing c with
  | nil => exact hu
  | cons op ops ih =>
    rw [applyOps, List.foldl_cons]
    refine ih _ ?_
    cases op with
    | insArticle d =>
      show urlsUnique (match execInsertArticle c d with
        | none => c
        | some p => p.1)
      cases heq : execInsertArticle c d with
      | none => exact hu
      | some p =>
        obtain ⟨h0, rfl⟩ := execInsertArticle_some_eq heq
        show urlsUnique (afterArticleInsert c d)
        unfold urlsUnique
        rw [afterArticleInsert_view]
        exact nodup_map_append_fresh hu (by simpa [mkArticleRow] using h0)
    | insAssoc aid tid =>
      show urlsUnique ((execInsertAssoc c aid tid).getD c)
      cases heq : execInsertAssoc c aid tid with
      | none => exact hu
      | some c2 =>
        rw [execInsertAssoc_some_eq heq]
        exact hu
    | commit =>
      show urlsUnique c.commit
      unfold urlsUnique
      rw [viewArticles_commit]
      exact hu

/-- C1 witness: the uniqueness invariant on a concrete statement sequence
(the same article inserted twice around a commit). -/
theorem url_unique_under_interleaving_witness :
    urlsUnique (applyOps emptyConn
      [DbOp.insArticle goodData, DbOp.commit, DbOp.insArticle goodData]) :=
  url_unique_under_interleaving emptyConn
    [DbOp.insArticle goodData, DbOp.commit, DbOp.insArticle goodData]
    emptyConn_unique

/-- C2 counterexample: `insert_article` called with a repeated ticker id
fails part-way (the second association INSERT violates the junction table's
primary key), yet the article row and the first association stay pending on
the shared connection, and the next commit on that connection makes them
durable — contradicting "on a failure part-way through, none of them do". -/
theorem insert_article_failure_leaks :
    isErr (insert_article emptyConn cexArticleData) = true
    ∧ ((connOf (insert_article emptyConn cexArticleData)).commit).committed.articles.map
        ArticleRow.url = ["http://example.com/a"]
    ∧ ((connOf (insert_article emptyConn cexArticleData)).commit).committed.article_tickers
        = [(1, 7)] :=
  ⟨by decide, by decide, by decide⟩

/-- C2 amended theorem: on a connection with no pending statements, a
`insert_article` call that returns successfully makes the article row and
all of its association rows durable together in its single commit, leaving
nothing pending. -/
theorem insert_article_atomic_success (c c2 : Conn) (d : ArticleData) (aid : Nat)
    (hpa : c.pendingArticles = []) (hps : c.pendingAssocs = [])
    (hok : insert_article c d = .ok (c2, aid)) :
    aid = c.nextId ∧ c2.pendingArticles = [] ∧ c2.pendingAssocs = [] ∧
    c2.committed.articles = c.committed.articles ++ [mkArticleRow c.nextId d] ∧
    c2.committed.article_tickers =
      c.committed.article_tickers ++ d.ticker_ids.map (fun t => (c.nextId, t)) := by
  rw [insert_article_eq] at hok
  by_cases h : urlIn c.viewArticles d.url
  · rw [if_pos h] at hok
    cases hok
  · rw [if_neg h] at hok
    cases haq : insertAssocs c.nextId (afterArticleInsert c d) d.ticker_ids with
    | error c3 =>
      rw [haq] at hok
      cases hok
    | ok c3 =>
      rw [haq] at hok
      simp only [Except.ok.injEq, Prod.mk.injEq] at hok
      obtain ⟨hc2, haid⟩ := hok
      subst hc2
      subst haid
      obtain ⟨f1, f2, f3, f4⟩ := insertAssocs_ok_fields haq
      refine ⟨rfl, rfl, rfl, ?_, ?_⟩
      · show c3.committed.articles ++ c3.pendingArticles = _
        rw [f1, f2]
        simp [afterArticleInsert, hpa]
      · show c3.committed.article_tickers ++ c3.pendingAssocs = _
        rw [f1, f4]
        simp [afterArticleInsert, hps]

/-- C2 witness: a successful concrete call, with the article row and its
single association committed together. -/
theorem insert_article_atomic_success_witness :
    1 = emptyConn.nextId ∧ goodConnAfter.pendingArticles = [] ∧
    goodConnAfter.pendingAssocs = [] ∧
    goodConnAfter.committed.articles =
      emptyConn.committed.articles ++ [mkArticleRow emptyConn.nextId goodData] ∧
    goodConnAfter.committed.article_tickers =
      emptyConn.committed.article_tickers ++
        goodData.ticker_ids.map (fun t => (emptyConn.nextId, t)) :=
  insert_article_atomic_success emptyConn goodConnAfter goodData 1 rfl rfl
    (by rfl)

/-! ## Lemmas about entry processing and claims C3, C10, C7 -/

theorem processEntry_none_iff (ch : String → String) (pd : String → Int × String)
    (pol : String → ℚ) (c : Conn) (fid : Nat) (tks kws sws : List String)
    (tmap : List (String × Nat)) (e : FeedEntry) :
    processEntry ch pd pol c fid tks kws sws tmap e = none ↔
      entryUrl e = "" ∨ ch (entryTitle e) = "" ∨
        article_exists c (entryUrl e) = true := by
  simp only [processEntry]
  split_ifs with h1 h2
  · exact iff_of_true rfl (by tauto)
  · exact iff_of_true rfl (by tauto)
  · push_neg at h1
    exact iff_of_false (by simp) (by tauto)

theorem processEntry_some_url {ch : String → String} {pd : String → Int × String}
    {pol : String → ℚ} {c : Conn} {fid : Nat} {tks kws sws : List String}
    {tmap : List (String × Nat)} {e : FeedEntry} {d : ArticleData}
    (h : processEntry ch pd pol c fid tks kws sws tmap e = some d) :
    d.url = entryUrl e ∧ article_exists c (entryUrl e) = false := by
  simp only [processEntry] at h
  split_ifs at h with h1 h2
  · injection h with h
    subst h
    exact ⟨rfl, by simpa using h2⟩

theorem mem_cycleCandidates {ch : String → String} {pd : String → Int × String}
    {pol : String → ℚ} {c : Conn} {feeds : List FeedInput}
    {tks kws sws : List String} {tmap : List (String × Nat)} {d : ArticleData} :
    d ∈ cycleCandidates ch pd pol c feeds tks kws sws tmap ↔
      ∃ f ∈ feeds, ∃ e ∈ f.entries,
        processEntry ch pd pol c f.feed_id tks kws sws tmap e = some d := by
  simp [cycleCandidates, processFeedEntries, List.mem_flatten, List.mem_map,
    List.mem_filterMap]

/-- C3: the store never holds two articles with the same URL; every article
candidate of a cycle ends with exactly one stored row carrying its URL (two
same-URL entries in one cycle yield exactly one stored article); and running
the same feed content through a second cycle inserts nothing and leaves the
store unchanged. -/
theorem dedup_two_cycles (ch : String → String) (pd : String → Int × String)
    (pol : String → ℚ) (c : Conn) (feeds : List FeedInput)
    (tks kws sws : List String) (tmap : List (String × Nat))
    (hu : urlsUnique c) :
    urlsUnique (runCycleModel ch pd pol c feeds tks kws sws tmap).1
    ∧ (∀ d ∈ cycleCandidates ch pd pol c feeds tks kws sws tmap,
        (runCycleModel ch pd pol c feeds tks kws sws tmap).1.viewArticles.countP
          (fun r => r.url == d.url) = 1)
    ∧ runCycleModel ch pd pol (runCycleModel ch pd pol c feeds tks kws sws tmap).1
        feeds tks kws sws tmap
      = ((runCycleModel ch pd pol c feeds tks kws sws tmap).1, 0) := by
  have hu1 : urlsUnique (runCycleModel ch pd pol c feeds tks kws sws tmap).1 :=
    insertPhase_unique hu
  have hpres : ∀ d ∈ cycleCandidates ch pd pol c feeds tks kws sws tmap,
      urlIn (runCycleModel ch pd pol c feeds tks kws sws tmap).1.viewArticles
        d.url = true := by
    intro d hd
    exact insertPhase_url_present hd
  refine ⟨hu1, fun d hd => countP_url_eq_one hu1 (urlIn_iff.mp (hpres d hd)), ?_⟩
  have hnone : ∀ f ∈ feeds, ∀ e ∈ f.entries,
      processEntry ch pd pol (runCycleModel ch pd pol c feeds tks kws sws tmap).1
        f.feed_id tks kws sws tmap e = none := by
    intro f hf e he
    rw [processEntry_none_iff]
    cases hpe : processEntry ch pd pol c f.feed_id tks kws sws tmap e with
    | some d =>
      obtain ⟨hdu, _⟩ := processEntry_some_url hpe
      refine Or.inr (Or.inr ?_)
      have hdmem : d ∈ cycleCandidates ch pd pol c feeds tks kws sws tmap :=
        mem_cycleCandidates.mpr ⟨f, hf, e, he, hpe⟩
      have hin := hpres d hdmem
      rw [hdu] at hin
      exact hin
    | none =>
      rcases (processEntry_none_iff ch pd pol c f.feed_id tks kws sws tmap e).mp
          hpe with h | h | h
      · exact Or.inl h
      · exact Or.inr (Or.inl h)
      · exact Or.inr (Or.inr (insertPhase_mono h))
  have hcc2 : cycleCandidates ch pd pol
      (runCycleModel ch pd pol c feeds tks kws sws tmap).1 feeds tks kws sws tmap
      = [] := by
    simp only [cycleCandidates, List.flatten_eq_nil_iff, List.mem_map,
      processFeedEntries]
    rintro l ⟨f, hf, rfl⟩
    rw [List.filterMap_eq_nil_iff]
    exact fun e he => hnone f hf e he
  show insertPhase (runCycleModel ch pd pol c feeds tks kws sws tmap).1
      (cycleCandidates ch pd pol
        (runCycleModel ch pd pol c feeds tks kws sws tmap).1 feeds tks kws sws tmap)
    = _
  rw [hcc2]
  rfl

/-- C3 witness: a cycle over a feed that carries the same entry twice, run
twice from the empty store. -/
theorem dedup_two_cycles_witness :
    urlsUnique (runCycleModel chId pdZero polZero emptyConn wFeeds
      ["AAPL"] [] [] [("AAPL", 3)]).1
    ∧ runCycleModel chId pdZero polZero
        (runCycleModel chId pdZero polZero emptyConn wFeeds
          ["AAPL"] [] [] [("AAPL", 3)]).1 wFeeds ["AAPL"] [] [] [("AAPL", 3)]
      = ((runCycleModel chId pdZero polZero emptyConn wFeeds
          ["AAPL"] [] [] [("AAPL", 3)]).1, 0) := by
  have h := dedup_two_cycles chId pdZero polZero emptyConn wFeeds
    ["AAPL"] [] [] [("AAPL", 3)] emptyConn_unique
  exact ⟨h.1, h.2.2⟩

/-- C10 corrected theorem: an entry whose title field is absent gets the
literal title "No title" and is produced for insertion whenever its URL is
non-empty and not already stored; and an entry is skipped exactly when its
URL is empty, its cleaned title is empty, or its URL already exists in the
store. -/
theorem no_title_substituted (ch : String → String) (pd : String → Int × String)
    (pol : String → ℚ) (c : Conn) (fid : Nat) (tks kws sws : List String)
    (tmap : List (String × Nat)) :
    (∀ e u, e.title = none → e.link = some u → u ≠ "" →
      ch "No title" = "No title" → article_exists c u = false →
      (processEntry ch pd pol c fid tks kws sws tmap e).map ArticleData.title
          = some "No title"
      ∧ (processEntry ch pd pol c fid tks kws sws tmap e).map ArticleData.url
          = some u)
    ∧ (∀ e, processEntry ch pd pol c fid tks kws sws tmap e = none ↔
        entryUrl e = "" ∨ ch (entryTitle e) = "" ∨
          article_exists c (entryUrl e) = true) := by
  refine ⟨?_, fun e => processEntry_none_iff ch pd pol c fid tks kws sws tmap e⟩
  intro e u ht hl hu0 hch hex
  have hurl : entryUrl e = u := by simp [entryUrl, hl]
  have htitle : entryTitle e = "No title" := by simp [entryTitle, ht]
  simp only [processEntry, hurl, htitle, hch]
  rw [if_neg (by tauto), if_neg (by simp [hex])]
  exact ⟨rfl, rfl⟩

/-- C10 witness: the no-title entry is produced with title "No title". -/
theorem no_title_substituted_witness :
    ((processEntry chId pdZero polZero emptyConn 1 [] [] [] [] entryNoTitle).map
        ArticleData.title = some "No title")
    ∧ ((processEntry chId pdZero polZero emptyConn 1 [] [] [] [] entryNoTitle).map
        ArticleData.url = some "http://example.com/n") :=
  (no_title_substituted chId pdZero polZero emptyConn 1 [] [] [] []).1
    entryNoTitle "http://example.com/n" rfl rfl (by decide) rfl (by decide)

/-- C10 counterexample: an entry with a non-empty URL and a non-empty
cleaned title is nevertheless skipped, because its URL already exists in the
store — so "only entries whose URL is empty or whose cleaned title is empty
are skipped" is false as stated. -/
theorem skipped_despite_title :
    processEntry chId pdZero polZero connWithG 1 [] [] [] [] entryGood = none
    ∧ entryUrl entryGood ≠ ""
    ∧ chId (entryTitle entryGood) ≠ "" :=
  ⟨by decide, by decide, by decide⟩

/-- C7 counterexample: the settings value is 600 when the iteration starts,
is changed to 20 while the cycle runs; the loop sleeps 600 seconds, not the
`max 20 10 = 20` the claim ("re-read upon that cycle's completion")
prescribes. -/
theorem sleep_uses_pre_cycle_interval :
    backgroundIterSleep ⟨600, 20, false⟩ = 600
    ∧ claimedIterSleep ⟨600, 20, false⟩ = 20
    ∧ backgroundIterSleep ⟨600, 20, false⟩ ≠ claimedIterSleep ⟨600, 20, false⟩ :=
  ⟨by decide, by decide, by decide⟩

/-- C7 corrected theorem: the sleep after a cycle is never shorter than 10
seconds (60 on the error path), and it is determined by the interval read at
the start of the iteration — the settings value at cycle completion is
irrelevant. -/
theorem sleep_clamped_at_ten (ob ob2 : LoopIterObs)
    (hstart : ob.riAtIterStart = ob2.riAtIterStart)
    (hraised : ob.raised = ob2.raised) :
    10 ≤ backgroundIterSleep ob ∧ backgroundIterSleep ob = backgroundIterSleep ob2 := by
  unfold backgroundIterSleep
  rw [hstart, hraised]
  refine ⟨?_, rfl⟩
  split
  · omega
  · omega

/-- C7 witness: two iterations differing only in the completion-time value
sleep identically, at least 10 seconds. -/
theorem sleep_clamped_at_ten_witness :
    10 ≤ backgroundIterSleep ⟨600, 20, false⟩
    ∧ backgroundIterSleep ⟨600, 20, false⟩ = backgroundIterSleep ⟨600, 999, false⟩ :=
  sleep_clamped_at_ten ⟨600, 20, false⟩ ⟨600, 999, false⟩ rfl rfl

end MarketNewsRadar
